import Mathlib

/-!
Verification of the Credit-Card-Statement-Parser extraction pipeline.

The Python sources under `backend/src` are shallowly embedded below:
strings are Lean `String`s (ASCII case mapping models `str.lower` /
`str.upper`), Python `float` values are modelled as exact decimals
`mant · 10 ^ exp` plus the special values `inf`, `-inf`, `nan` (binary
rounding and overflow-to-infinity of IEEE doubles are abstracted away:
every claim under study concerns parsing and filtering logic, not
floating-point representation), pandas `DataFrame`s detected from PDF
tables are header-plus-rows blocks of cell strings, and regular
expressions are embedded as executable matchers with the same match
semantics on the inputs the claims quantify over.
-/

namespace CCStmt

/-! ## Characters and strings -/

/-- ASCII whitespace, the subset of Python's `\s` / `str.strip` whitespace
relevant to the embedded code (all texts in the claims are ASCII). -/
def pyIsSpace (c : Char) : Bool :=
  c == ' ' || c == '\t' || c == '\n' || c == '\r' || c == '\x0b' || c == '\x0c'

/-- ASCII lower-casing of one character, modelling Python `str.lower`.
Written as an explicit 26-case table so that proofs can analyse it by
cases without unsigned-integer arithmetic. -/
def lowerChar (c : Char) : Char :=
  match c with
  | 'A' => 'a' | 'B' => 'b' | 'C' => 'c' | 'D' => 'd' | 'E' => 'e'
  | 'F' => 'f' | 'G' => 'g' | 'H' => 'h' | 'I' => 'i' | 'J' => 'j'
  | 'K' => 'k' | 'L' => 'l' | 'M' => 'm' | 'N' => 'n' | 'O' => 'o'
  | 'P' => 'p' | 'Q' => 'q' | 'R' => 'r' | 'S' => 's' | 'T' => 't'
  | 'U' => 'u' | 'V' => 'v' | 'W' => 'w' | 'X' => 'x' | 'Y' => 'y'
  | 'Z' => 'z' | c => c

/-- ASCII upper-casing of one character, modelling Python `str.upper`. -/
def upperChar (c : Char) : Char :=
  match c with
  | 'a' => 'A' | 'b' => 'B' | 'c' => 'C' | 'd' => 'D' | 'e' => 'E'
  | 'f' => 'F' | 'g' => 'G' | 'h' => 'H' | 'i' => 'I' | 'j' => 'J'
  | 'k' => 'K' | 'l' => 'L' | 'm' => 'M' | 'n' => 'N' | 'o' => 'O'
  | 'p' => 'P' | 'q' => 'Q' | 'r' => 'R' | 's' => 'S' | 't' => 'T'
  | 'u' => 'U' | 'v' => 'V' | 'w' => 'W' | 'x' => 'X' | 'y' => 'Y'
  | 'z' => 'Z' | c => c

/-- Python `text.lower()`. -/
def lowerStr (s : String) : String := ⟨s.data.map lowerChar⟩

/-- Python `text.upper()`. -/
def upperStr (s : String) : String := ⟨s.data.map upperChar⟩

/-- Python substring containment `needle in hay`. -/
def containsSub (hay needle : String) : Bool := decide (needle.data <:+: hay.data)

/-- Python `s.strip()` on a character list. -/
def stripChars (cs : List Char) : List Char :=
  ((cs.dropWhile pyIsSpace).reverse.dropWhile pyIsSpace).reverse

/-- Python `s.strip()`. -/
def stripStr (s : String) : String := ⟨stripChars s.data⟩

/-- Python `re.sub(r'\s+', ' ', s)`: every maximal whitespace run becomes
one space.  The flag records whether the previous character was part of a
whitespace run already replaced. -/
def collapseWsAux : Bool → List Char → List Char
  | _, [] => []
  | prevWs, c :: cs =>
    if pyIsSpace c then
      if prevWs then collapseWsAux true cs else ' ' :: collapseWsAux true cs
    else c :: collapseWsAux false cs

/-- Python `re.sub(r'\s+', ' ', s)` on strings. -/
def collapseWs (s : String) : String := ⟨collapseWsAux false s.data⟩

/-! ## Issuer detection (api/routes.py and parsers/<bank>_parser.py) -/

/-- The five issuer parsers registered in `routes.py`, in the order of the
module-level `PARSERS` list. -/
inductive Issuer where
  | amexIndia | hdfc | icici | kotak | sbi
deriving DecidableEq

/-- `AmexIndiaParser.can_parse` indicator list (verbatim, including the
two mixed-case entries). -/
def amexIndiaIndicators : List String :=
  ["american express", "amex", "americanexpress.co.in",
   "American Express Banking Corp", "AEBC"]

/-- `HDFCParser.can_parse` indicator list. -/
def hdfcIndicators : List String :=
  ["hdfc bank", "hdfcbank", "hdfc credit card", "times card", "timescard"]

/-- `ICICIParser.can_parse` indicator list (verbatim, including the
mixed-case entry). -/
def iciciIndicators : List String :=
  ["icici bank", "icicibank", "icici credit card", "ICICI Bank Credit Cards"]

/-- `KotakParser.can_parse` indicator list. -/
def kotakIndicators : List String :=
  ["kotak", "kotak mahindra bank", "kotak credit card", "kotak bank"]

/-- `SBIParser.can_parse` indicator list. -/
def sbiIndicators : List String :=
  ["state bank of india", "sbi", "sbichq", "sbin"]

/-- The detection keywords of each registered issuer parser. -/
def issuerKeywords : Issuer → List String
  | .amexIndia => amexIndiaIndicators
  | .hdfc => hdfcIndicators
  | .icici => iciciIndicators
  | .kotak => kotakIndicators
  | .sbi => sbiIndicators

/-- Body shared by every `can_parse` in `parsers/`:
`any(indicator in text.lower() for indicator in indicators)`.
Note that the indicator itself is *not* lower-cased by the code. -/
def issuerCanParse (p : Issuer) (text : String) : Bool :=
  (issuerKeywords p).any (fun ind => containsSub (lowerStr text) ind)

/-- The `PARSERS` priority order from `routes.py`. -/
def parserOrder : List Issuer := [.amexIndia, .hdfc, .icici, .kotak, .sbi]

/-- The parser-selection loop of `parse_statement` in `routes.py`:
the first registered parser whose `can_parse` accepts the text;
`none` models the `UnsupportedIssuer` 400 response. -/
def detectIssuer (text : String) : Option Issuer :=
  parserOrder.find? (fun p => issuerCanParse p text)

/-- Modelled from the claim and spec wording: keyword `kw` occurs in `text`
as a case-insensitive substring (both sides lower-cased).  This is the
reference reading the claims compare `can_parse` against. -/
def specKeywordIn (text kw : String) : Bool :=
  containsSub (lowerStr text) (lowerStr kw)

/-- The parsers that `routes.py` tries strictly before a given parser. -/
def earlierIssuers : Issuer → List Issuer
  | .amexIndia => []
  | .hdfc => [.amexIndia]
  | .icici => [.amexIndia, .hdfc]
  | .kotak => [.amexIndia, .hdfc, .icici]
  | .sbi => [.amexIndia, .hdfc, .icici, .kotak]

/-- Reference predicate following the claim C9 wording: detection succeeds
exactly when the lower-cased text contains one of the three all-lowercase
American Express keywords. -/
def amexIndiaSpecCanParse (text : String) : Bool :=
  (["american express", "amex", "americanexpress.co.in"] : List String).any
    (fun ind => containsSub (lowerStr text) ind)

/-! ## Character-level lemmas -/

/-- The ASCII lower-case letters. -/
def lcLetters : List Char :=
  ['a','b','c','d','e','f','g','h','i','j','k','l','m',
   'n','o','p','q','r','s','t','u','v','w','x','y','z']

theorem lowerChar_fix_or_lc (c : Char) :
    lowerChar c = c ∨ lowerChar c ∈ lcLetters := by
  unfold lowerChar
  split
  all_goals first
    | exact Or.inl rfl
    | exact Or.inr (by decide)

theorem lowerChar_of_lc : ∀ u ∈ lcLetters, lowerChar u = u := by decide

theorem lowerChar_ne_of_upper {u : Char} (c : Char)
    (hu : lowerChar u ≠ u) : lowerChar c ≠ u := by
  intro h
  rcases lowerChar_fix_or_lc c with hfix | hlc
  · have hcu : c = u := by rw [← h, hfix]
    subst hcu
    exact hu h
  · exact hu (lowerChar_of_lc u (h ▸ hlc))

theorem not_mem_map_lowerChar {u : Char} (hu : lowerChar u ≠ u)
    (l : List Char) : u ∉ l.map lowerChar := by
  intro hmem
  rcases List.mem_map.mp hmem with ⟨a, _, ha⟩
  exact lowerChar_ne_of_upper a hu ha

/-- A needle whose first character is an ASCII upper-case letter can never
occur inside a lower-cased string. -/
theorem containsSub_lowerStr_eq_false (t : String) {kw : String} {u : Char}
    (hmem : u ∈ kw.data) (hu : lowerChar u ≠ u) :
    containsSub (lowerStr t) kw = false := by
  apply decide_eq_false
  intro hinf
  rcases hinf with ⟨s₁, s₂, hsplit⟩
  have : u ∈ (lowerStr t).data := by
    rw [← hsplit]
    simp [hmem]
  exact not_mem_map_lowerChar hu t.data this

theorem any_containsSub_eq_false (t : String) (kws : List String)
    (h : ∀ kw ∈ kws, specKeywordIn t kw = false)
    (hok : ∀ kw ∈ kws, lowerStr kw = kw ∨ ∃ u ∈ kw.data, lowerChar u ≠ u) :
    kws.any (fun ind => containsSub (lowerStr t) ind) = false := by
  rw [List.any_eq_false]
  intro ind hind
  rcases hok ind hind with hlow | ⟨u, humem, hune⟩
  · have hf := h ind hind
    unfold specKeywordIn at hf
    rw [hlow] at hf
    simp [hf]
  · simp [containsSub_lowerStr_eq_false t humem hune]

theorem issuerCanParse_eq_false (q : Issuer) (t : String)
    (h : ∀ kw ∈ issuerKeywords q, specKeywordIn t kw = false) :
    issuerCanParse q t = false := by
  apply any_containsSub_eq_false t _ h
  cases q <;> decide

theorem issuerCanParse_eq_true {p : Issuer} {t kw : String}
    (hkw : kw ∈ issuerKeywords p) (hlow : lowerStr kw = kw)
    (hin : specKeywordIn t kw = true) : issuerCanParse p t = true := by
  unfold specKeywordIn at hin
  rw [hlow] at hin
  exact List.any_eq_true.mpr ⟨kw, hkw, hin⟩

/-- C1 counterexample: the claim promises `detect(T) == P` whenever `T`
contains one of `P`'s detection keywords case-insensitively and no
earlier profile's keyword appears.  The text "AEBC" contains the
American Express keyword "AEBC" (the first-priority profile, so no
earlier profile exists), yet detection returns no issuer, because
`can_parse` checks the verbatim keyword against the lower-cased text and
"AEBC" retains upper-case letters. -/
theorem detectIssuer_claim_counterexample :
    "AEBC" ∈ issuerKeywords .amexIndia ∧
    specKeywordIn "AEBC" "AEBC" = true ∧
    earlierIssuers .amexIndia = [] ∧
    detectIssuer "AEBC" = none := by decide

/-- C1 amended: issuer detection is first-match-wins over the fixed
parser order, where a parser matches exactly when one of its verbatim
keywords occurs in the lower-cased text; consequently, for every profile
P and keyword of P that is invariant under lower-casing, any text
containing it case-insensitively is detected as P provided no
earlier-ordered profile's keyword appears case-insensitively, and a text
containing no profile's keyword yields the unsupported-issuer outcome. -/
theorem detectIssuer_first_match :
    (∀ (t : String) (p : Issuer) (kw : String),
        kw ∈ issuerKeywords p → lowerStr kw = kw → specKeywordIn t kw = true →
        (∀ q ∈ earlierIssuers p, ∀ kw2 ∈ issuerKeywords q, specKeywordIn t kw2 = false) →
        detectIssuer t = some p)
    ∧ (∀ t : String,
        (∀ p ∈ parserOrder, ∀ kw ∈ issuerKeywords p, specKeywordIn t kw = false) →
        detectIssuer t = none) := by
  constructor
  · intro t p kw hkw hlow hin hearly
    have hp := issuerCanParse_eq_true hkw hlow hin
    have hfalse : ∀ q ∈ earlierIssuers p, issuerCanParse q t = false := fun q hq =>
      issuerCanParse_eq_false q t (hearly q hq)
    cases p with
    | amexIndia => simp [detectIssuer, parserOrder, List.find?, hp]
    | hdfc =>
      have h1 := hfalse .amexIndia (by simp [earlierIssuers])
      simp [detectIssuer, parserOrder, List.find?, hp, h1]
    | icici =>
      have h1 := hfalse .amexIndia (by simp [earlierIssuers])
      have h2 := hfalse .hdfc (by simp [earlierIssuers])
      simp [detectIssuer, parserOrder, List.find?, hp, h1, h2]
    | kotak =>
      have h1 := hfalse .amexIndia (by simp [earlierIssuers])
      have h2 := hfalse .hdfc (by simp [earlierIssuers])
      have h3 := hfalse .icici (by simp [earlierIssuers])
      simp [detectIssuer, parserOrder, List.find?, hp, h1, h2, h3]
    | sbi =>
      have h1 := hfalse .amexIndia (by simp [earlierIssuers])
      have h2 := hfalse .hdfc (by simp [earlierIssuers])
      have h3 := hfalse .icici (by simp [earlierIssuers])
      have h4 := hfalse .kotak (by simp [earlierIssuers])
      simp [detectIssuer, parserOrder, List.find?, hp, h1, h2, h3, h4]
  · intro t h
    have hfalse : ∀ q ∈ parserOrder, issuerCanParse q t = false := fun q hq =>
      issuerCanParse_eq_false q t (h q hq)
    have h1 := hfalse .amexIndia (by simp [parserOrder])
    have h2 := hfalse .hdfc (by simp [parserOrder])
    have h3 := hfalse .icici (by simp [parserOrder])
    have h4 := hfalse .kotak (by simp [parserOrder])
    have h5 := hfalse .sbi (by simp [parserOrder])
    simp [detectIssuer, parserOrder, List.find?, h1, h2, h3, h4, h5]

/-- Witness for the amended C1 theorem at concrete texts. -/
theorem detectIssuer_first_match_witness :
    detectIssuer "statement of hdfc bank" = some .hdfc ∧
    detectIssuer "no matching words here" = none :=
  ⟨detectIssuer_first_match.1 "statement of hdfc bank" .hdfc "hdfc bank"
      (by decide) (by decide) (by decide) (by decide),
   detectIssuer_first_match.2 "no matching words here" (by decide)⟩

/-- C9: the American Express (India) detection predicate is exactly the
three-lowercase-keyword predicate; the two mixed-case indicator entries
can never contribute a match, since the text is lower-cased before the
substring test while those indicators retain upper-case letters. -/
theorem amexIndia_canParse_equiv :
    ∀ t : String,
      issuerCanParse .amexIndia t = amexIndiaSpecCanParse t ∧
      containsSub (lowerStr t) "American Express Banking Corp" = false ∧
      containsSub (lowerStr t) "AEBC" = false := by
  intro t
  have h1 : containsSub (lowerStr t) "American Express Banking Corp" = false :=
    containsSub_lowerStr_eq_false t (u := 'A') (by decide) (by decide)
  have h2 : containsSub (lowerStr t) "AEBC" = false :=
    containsSub_lowerStr_eq_false t (u := 'A') (by decide) (by decide)
  refine ⟨?_, h1, h2⟩
  show (amexIndiaIndicators).any _ = _
  unfold amexIndiaIndicators amexIndiaSpecCanParse
  simp [List.any_cons, List.any_nil, h1, h2]

/-! ## Python floats and `float(str)` -/

/-- A Python float, with the numeric value held exactly as a decimal
`mant · 10 ^ exp` (IEEE rounding and overflow are abstracted away; the
integer pair is kernel-computable where rational arithmetic is not). -/
inductive PyFloat where
  | finite (mant : Int) (exp : Int)
  | inf
  | negInf
  | nan
deriving DecidableEq

/-- The rational value of a finite Python float. -/
def PyFloat.toRat? : PyFloat → Option ℚ
  | .finite m e => some ((m : ℚ) * (10 : ℚ) ^ e)
  | _ => none

/-- Python `x > 0` on floats (`nan > 0` is `False`). -/
def PyFloat.isPos : PyFloat → Bool
  | .finite m _ => decide (0 < m)
  | .inf => true
  | .negInf => false
  | .nan => false

/-- Python `x <= 0` on floats (`nan <= 0` is `False`). -/
def PyFloat.leZero : PyFloat → Bool
  | .finite m _ => decide (m ≤ 0)
  | .inf => false
  | .negInf => true
  | .nan => false

/-- Consume a CPython `digitpart` continuation: digits with single
underscores allowed between digits.  Returns the accumulated value, the
number of digits consumed, and the remaining characters. -/
def digRun : Nat → Nat → List Char → Nat × Nat × List Char
  | v, n, [] => (v, n, [])
  | v, n, c :: cs =>
    if c.isDigit then digRun (10 * v + (c.toNat - 48)) (n + 1) cs
    else if c == '_' then
      match cs with
      | d :: cs2 =>
        if d.isDigit then digRun (10 * v + (d.toNat - 48)) (n + 1) cs2
        else (v, n, c :: cs)
      | [] => (v, n, [c])
    else (v, n, c :: cs)

/-- A CPython `digitpart`: at least one digit, underscores between digits. -/
def parseDigitPart (cs : List Char) : Option (Nat × Nat × List Char) :=
  match cs with
  | c :: rest => if c.isDigit then some (digRun (c.toNat - 48) 1 rest) else none
  | [] => none

/-- A CPython `floatnumber` without exponent, as decimal mantissa and
exponent: `digitpart ["." [digitpart]] | "." digitpart`. -/
def parseNumber (cs : List Char) : Option (Int × Int × List Char) :=
  match cs with
  | '.' :: rest =>
    match parseDigitPart rest with
    | some (fv, fn, r) => some ((fv : Int), -(fn : Int), r)
    | none => none
  | _ =>
    match parseDigitPart cs with
    | none => none
    | some (iv, _, r) =>
      match r with
      | '.' :: r2 =>
        match parseDigitPart r2 with
        | some (fv, fn, r3) =>
          some ((iv : Int) * (10 : Int) ^ fn + (fv : Int), -(fn : Int), r3)
        | none => some ((iv : Int), 0, r2)
      | _ => some ((iv : Int), 0, r)

/-- A CPython `floatnumber` with optional exponent, requiring the whole
input to be consumed. -/
def parseMantissaExp (cs : List Char) : Option (Int × Int) :=
  match parseNumber cs with
  | none => none
  | some (m, e, r) =>
    match r with
    | [] => some (m, e)
    | c :: r2 =>
      if c == 'e' || c == 'E' then
        let se : Int × List Char :=
          match r2 with
          | '+' :: r3 => (1, r3)
          | '-' :: r3 => (-1, r3)
          | _ => (1, r2)
        match parseDigitPart se.2 with
        | some (ev, _, r4) =>
          if r4 = [] then some (m, e + se.1 * (ev : Int)) else none
        | none => none
      else none

/-- CPython `float(str)`: strip surrounding whitespace, optional sign,
then either `inf`/`infinity`/`nan` (case-insensitive) or a decimal
number with optional fraction, underscores and exponent.  `none` models
the `ValueError` raised on any other input. -/
def pyFloatOfString (s : String) : Option PyFloat :=
  let cs := stripChars s.data
  let sn : Bool × List Char :=
    match cs with
    | '+' :: t => (false, t)
    | '-' :: t => (true, t)
    | _ => (false, cs)
  let low := sn.2.map lowerChar
  if low = "inf".data ∨ low = "infinity".data then
    some (if sn.1 then .negInf else .inf)
  else if low = "nan".data then some .nan
  else
    match parseMantissaExp sn.2 with
    | some me => some (.finite (if sn.1 then -me.1 else me.1) me.2)
    | none => none

/-! ## The four amount parsers -/

/-- The character class `[₹$Rs\s]` of `HDFCTableParser._parse_amount`
(this one carries a genuine U+20B9 rupee sign). -/
def hdfcStripChar (c : Char) : Bool :=
  c == '₹' || c == '$' || c == 'R' || c == 's' || pyIsSpace c

/-- The character class of `TableBasedParser._clean_amount`.  In the
source file the intended rupee sign is mojibake: the class literally
holds U+201A, U+00C7 and U+03C0 instead of U+20B9. -/
def tableStripChar (c : Char) : Bool :=
  c == '‚' || c == 'Ç' || c == 'π' || c == '$' || c == 'R' || c == 's' || pyIsSpace c

/-- The character class of `RobustExtractor._parse_amount`.  Here too the
rupee sign is mojibake — literally U+00E2, U+201A and U+00B9 — and the
class also swallows commas (and has no `$`). -/
def robustStripChar (c : Char) : Bool :=
  c == 'â' || c == '‚' || c == '¹' || c == 'R' || c == 's' || pyIsSpace c || c == ','

/-- `HDFCTableParser._parse_amount` cleaning: `re.sub` of the class, then
`replace(',', '')`. -/
def hdfcCleanedStr (s : String) : String :=
  ⟨(s.data.filter (fun c => !hdfcStripChar c)).filter (fun c => !(c == ','))⟩

/-- `HDFCTableParser._parse_amount`. -/
def hdfcParseAmount (s : String) : PyFloat :=
  if s = "" ∨ s = "nan" then .finite 0 0
  else
    match pyFloatOfString (hdfcCleanedStr s) with
    | some v => v
    | none => .finite 0 0

/-- `TableBasedParser._clean_amount` cleaning. -/
def tableCleanedStr (s : String) : String :=
  ⟨(s.data.filter (fun c => !tableStripChar c)).filter (fun c => !(c == ','))⟩

/-- `TableBasedParser._clean_amount`. -/
def tableCleanAmount (s : String) : PyFloat :=
  match pyFloatOfString (tableCleanedStr s) with
  | some v => v
  | none => .finite 0 0

/-- `RobustExtractor._parse_amount` cleaning (one `re.sub`, commas in the
class). -/
def robustCleanedStr (s : String) : String :=
  ⟨s.data.filter (fun c => !robustStripChar c)⟩

/-- `RobustExtractor._parse_amount`. -/
def robustParseAmount (s : String) : PyFloat :=
  match pyFloatOfString (robustCleanedStr s) with
  | some v => v
  | none => .finite 0 0

/-- `PDFExtractor.extract_amount` step 1: `re.sub(r'[$,]', '', text)`. -/
def extractAmountPre (s : String) : String :=
  ⟨s.data.filter (fun c => !(c == '$' || c == ','))⟩

/-- The leftmost-greedy match of `[\d,]+\.?\d*` starting at the head of
the list (the head is known to be in `[\d,]`). -/
def numTokenAt (l : List Char) : List Char :=
  let r1 := l.takeWhile (fun c => c.isDigit || c == ',')
  match l.dropWhile (fun c => c.isDigit || c == ',') with
  | '.' :: rest => r1 ++ '.' :: rest.takeWhile Char.isDigit
  | _ => r1

/-- `re.search(r'[\d,]+\.?\d*', text)`: the leftmost match, if any. -/
def numSearch : List Char → Option (List Char)
  | [] => none
  | c :: cs => if c.isDigit || c == ',' then some (numTokenAt (c :: cs)) else numSearch cs

/-- `PDFExtractor.extract_amount`. -/
def extractAmount (s : String) : PyFloat :=
  match numSearch (extractAmountPre s).data with
  | some tok =>
    match pyFloatOfString ⟨tok⟩ with
    | some v => v
    | none => .finite 0 0
  | none => .finite 0 0

/-- C4 (code bug): the two amount cleaners whose rupee sign is
mojibake-corrupted return the 0.0 sentinel on a ₹-marked amount instead
of the denoted value, while the intact sibling parsers return the
correct value; grouping styles and the other currency markers behave as
claimed. -/
theorem amountParsing_rupee_mojibake :
    (tableCleanAmount "₹100.00").toRat? = some 0 ∧
    (robustParseAmount "₹100.00").toRat? = some 0 ∧
    (hdfcParseAmount "₹100.00").toRat? = some 100 ∧
    (extractAmount "₹100.00").toRat? = some 100 ∧
    (tableCleanAmount "Rs 5,882.52").toRat? = some (5882.52 : ℚ) ∧
    (tableCleanAmount "1,23,456.78").toRat? = some (123456.78 : ℚ) ∧
    (tableCleanAmount "45,240.00").toRat? = some 45240 ∧
    (robustParseAmount "Rs 5,882.52").toRat? = some (5882.52 : ℚ) ∧
    (extractAmount "Rs 5,882.52").toRat? = some (5882.52 : ℚ) ∧
    (extractAmount "1,23,456.78").toRat? = some (123456.78 : ℚ) := by
  have h1 : tableCleanAmount "₹100.00" = .finite 0 0 := by decide
  have h2 : robustParseAmount "₹100.00" = .finite 0 0 := by decide
  have h3 : hdfcParseAmount "₹100.00" = .finite 10000 (-2) := by decide
  have h4 : extractAmount "₹100.00" = .finite 10000 (-2) := by decide
  have h5 : tableCleanAmount "Rs 5,882.52" = .finite 588252 (-2) := by decide
  have h6 : tableCleanAmount "1,23,456.78" = .finite 12345678 (-2) := by decide
  have h7 : tableCleanAmount "45,240.00" = .finite 4524000 (-2) := by decide
  have h8 : robustParseAmount "Rs 5,882.52" = .finite 588252 (-2) := by decide
  have h9 : extractAmount "Rs 5,882.52" = .finite 588252 (-2) := by decide
  have h10 : extractAmount "1,23,456.78" = .finite 12345678 (-2) := by decide
  refine ⟨?_, ?_, ?_, ?_, ?_, ?_, ?_, ?_, ?_, ?_⟩ <;>
    simp only [h1, h2, h3, h4, h5, h6, h7, h8, h9, h10, PyFloat.toRat?] <;>
    norm_num

/-- C7: amount parsing is total (every Lean function is; the embedded
`try/except` is the two sentinel branches below) and returns exactly 0.0
for empty input and for input whose cleaned form `float()` rejects. -/
theorem amountParsing_sentinel :
    ∀ s : String,
      (pyFloatOfString (hdfcCleanedStr s) = none → hdfcParseAmount s = .finite 0 0) ∧
      (numSearch (extractAmountPre s).data = none → extractAmount s = .finite 0 0) ∧
      hdfcParseAmount "" = .finite 0 0 ∧
      extractAmount "" = .finite 0 0 := by
  intro s
  refine ⟨?_, ?_, by decide, by decide⟩
  · intro h
    unfold hdfcParseAmount
    split
    · rfl
    · simp [h]
  · intro h
    unfold extractAmount
    simp [h]

/-- Witness for C7 at a concrete non-numeric input. -/
theorem amountParsing_sentinel_witness :
    hdfcParseAmount "abc" = .finite 0 0 ∧ extractAmount "abc" = .finite 0 0 :=
  ⟨(amountParsing_sentinel "abc").1 (by decide),
   (amountParsing_sentinel "abc").2.1 (by decide)⟩

/-! ## Tables and the two transaction-table resolvers -/

/-- A detected PDF table as the parsers see it: `pd.DataFrame(table[1:],
columns=table[0])` — a header row naming the columns and the data rows
(already stringified cells; fully-empty rows are dropped upstream). -/
structure TableBlock where
  header : List String
  rows : List (List String)
deriving DecidableEq

/-- pandas `df.empty`: some axis has length zero. -/
def dfEmpty (t : TableBlock) : Bool :=
  t.rows.length == 0 || t.header.length == 0

/-- The `continue` guard of `HDFCTableParser._find_transaction_table`:
`if df.empty or len(df) < 3: continue`. -/
def hdfcTableOk (t : TableBlock) : Bool :=
  !(dfEmpty t || decide (t.rows.length < 3))

/-- The score of `HDFCTableParser._find_transaction_table`. -/
def hdfcTableScore (t : TableBlock) : Nat :=
  let headers := t.header.map lowerStr
  (if headers.any (fun h => containsSub h "date") then 2 else 0) +
  (if headers.any (fun h => containsSub h "description" || containsSub h "transaction")
   then 2 else 0) +
  (if headers.any (fun h => containsSub h "amount") then 2 else 0) +
  (if 5 < t.rows.length then 1 else 0) +
  (if 3 ≤ t.header.length then 1 else 0)

/-- The shared best-scoring-table loop: `best_match = None`,
`best_score = 0`, ineligible tables are skipped, and a table replaces the
current best only when its score is strictly greater. -/
def bestLoop {α : Type} (elig : α → Bool) (score : α → Nat) :
    List α → Option α → Nat → Option α
  | [], best, _ => best
  | t :: ts, best, bestScore =>
    if elig t then
      if bestScore < score t then bestLoop elig score ts (some t) (score t)
      else bestLoop elig score ts best bestScore
    else bestLoop elig score ts best bestScore

/-- `HDFCTableParser._find_transaction_table`. -/
def hdfcFindTransactionTable (tables : List TableBlock) : Option TableBlock :=
  bestLoop hdfcTableOk hdfcTableScore tables none 0

/-- The keyword list of `TableAwarePDFExtractor.extract_transaction_table`. -/
def tableAwareKeywords : List String :=
  ["date", "description", "amount", "transaction", "debit", "credit"]

/-- The `continue` guard of `extract_transaction_table`:
`if df.empty or len(df.columns) < 2: continue`.  Unlike the HDFC
resolver this never inspects the row count. -/
def tableAwareOk (t : TableBlock) : Bool :=
  !(dfEmpty t || decide (t.header.length < 2))

/-- The score of `extract_transaction_table`: one point per matched
keyword, one for more than three rows, one for at least three columns. -/
def tableAwareScore (t : TableBlock) : Nat :=
  let headers := t.header.map lowerStr
  tableAwareKeywords.countP (fun kw => headers.any (fun h => containsSub h kw)) +
  (if 3 < t.rows.length then 1 else 0) +
  (if 3 ≤ t.header.length then 1 else 0)

/-- `TableAwarePDFExtractor.extract_transaction_table`. -/
def extractTransactionTable (tables : List TableBlock) : Option TableBlock :=
  bestLoop tableAwareOk tableAwareScore tables none 0

/-- The effective comparison key of a table in a selection loop: its
score when eligible, `0` (the never-selected initial best score) when
the loop skips it. -/
def keyOf {α : Type} (elig : α → Bool) (score : α → Nat) (t : α) : Nat :=
  if elig t then score t else 0

/-- The greatest effective key occurring in a list (0 when empty). -/
def maxKey {α : Type} (elig : α → Bool) (score : α → Nat) : List α → Nat
  | [] => 0
  | t :: ts => max (keyOf elig score t) (maxKey elig score ts)

theorem keyOf_le_maxKey {α : Type} (elig : α → Bool) (score : α → Nat)
    {u : α} {ts : List α} (h : u ∈ ts) :
    keyOf elig score u ≤ maxKey elig score ts := by
  induction ts with
  | nil => cases h
  | cons t ts ih =>
    rcases List.mem_cons.mp h with rfl | h2
    · exact le_max_left _ _
    · exact le_trans (ih h2) (le_max_right _ _)

theorem maxKey_eq_zero {α : Type} (elig : α → Bool) (score : α → Nat)
    {ts : List α} (h : ∀ u ∈ ts, keyOf elig score u = 0) :
    maxKey elig score ts = 0 := by
  induction ts with
  | nil => rfl
  | cons t ts ih =>
    show max _ _ = 0
    rw [h t (List.mem_cons_self t ts), ih (fun u hu => h u (List.mem_cons_of_mem t hu))]
    simp

/-- Closed form of the selection loop: it returns the first table whose
effective key attains the maximum, provided that maximum beats the
incoming best score, and the incoming best otherwise. -/
theorem bestLoop_eq {α : Type} (elig : α → Bool) (score : α → Nat) :
    ∀ (ts : List α) (best : Option α) (b : Nat),
      bestLoop elig score ts best b =
        if b < maxKey elig score ts
        then ts.find? (fun u => decide (maxKey elig score ts ≤ keyOf elig score u))
        else best := by
  intro ts
  induction ts with
  | nil => intro best b; simp [bestLoop, maxKey]
  | cons t ts ih =>
    intro best b
    have hM : maxKey elig score (t :: ts) =
        max (keyOf elig score t) (maxKey elig score ts) := rfl
    by_cases helig : elig t = true
    · have hK : keyOf elig score t = score t := by simp [keyOf, helig]
      by_cases hbs : b < score t
      · have hL : bestLoop elig score (t :: ts) best b =
            bestLoop elig score ts (some t) (score t) := by
          simp [bestLoop, helig, hbs]
        rw [hL, ih]
        by_cases hm : score t < maxKey elig score ts
        · have hmax : maxKey elig score (t :: ts) = maxKey elig score ts := by
            rw [hM, hK]; exact max_eq_right (le_of_lt hm)
          have hb2 : b < maxKey elig score (t :: ts) := by omega
          rw [if_pos hm, if_pos hb2, hmax,
            List.find?_cons_of_neg _ (by simp [hK]; omega)]
        · have hmax : maxKey elig score (t :: ts) = score t := by
            rw [hM, hK]; exact max_eq_left (by omega)
          have hb2 : b < maxKey elig score (t :: ts) := by omega
          rw [if_neg hm, if_pos hb2, hmax,
            List.find?_cons_of_pos _ (by simp [hK])]
      · have hL : bestLoop elig score (t :: ts) best b =
            bestLoop elig score ts best b := by
          simp [bestLoop, helig, hbs]
        rw [hL, ih]
        by_cases hm : b < maxKey elig score ts
        · have hmax : maxKey elig score (t :: ts) = maxKey elig score ts := by
            rw [hM, hK]; exact max_eq_right (by omega)
          rw [if_pos hm, if_pos (by omega : b < maxKey elig score (t :: ts)), hmax,
            List.find?_cons_of_neg _ (by simp [hK]; omega)]
        · have hle : maxKey elig score (t :: ts) ≤ b := by
            rw [hM, hK]; omega
          rw [if_neg hm, if_neg (by omega)]
    · have hK : keyOf elig score t = 0 := by simp [keyOf, helig]
      have hL : bestLoop elig score (t :: ts) best b =
          bestLoop elig score ts best b := by
        simp [bestLoop, helig]
      rw [hL, ih]
      by_cases hm : b < maxKey elig score ts
      · have hmax : maxKey elig score (t :: ts) = maxKey elig score ts := by
          rw [hM, hK]; omega
        rw [if_pos hm, if_pos (by omega : b < maxKey elig score (t :: ts)), hmax,
          List.find?_cons_of_neg _ (by simp [hK]; omega)]
      · have hle : maxKey elig score (t :: ts) ≤ b := by
          rw [hM, hK]; omega
        rw [if_neg hm, if_neg (by omega)]

/-- A one-data-row transaction-like table. -/
def smallTxnTable : TableBlock :=
  ⟨["date", "description", "amount"], [["01/01/2024", "coffee shop", "5.00"]]⟩

/-- C3 counterexample: the claim says tables with fewer than 3 rows are
excluded from consideration entirely, but the resolver in
`extract_transaction_table` happily selects a one-row table (its guard
only rejects tables with fewer than two columns). -/
theorem resolver_counterexample_small_table :
    smallTxnTable.rows.length < 3 ∧
    extractTransactionTable [smallTxnTable] = some smallTxnTable := by decide

/-- C3 amended: the HDFC-style resolver scores +2/+2/+2/+1/+1, skips
empty or sub-3-row tables, returns the first table attaining the maximal
score (strictly positive), and returns no table otherwise, while the
`extract_transaction_table` resolver follows the same loop with
one-point-per-keyword scoring and a guard that only drops empty or
single-column tables. -/
theorem resolver_selection (tables : List TableBlock) :
    hdfcFindTransactionTable tables =
      (if 0 < maxKey hdfcTableOk hdfcTableScore tables
       then tables.find? (fun u =>
         decide (maxKey hdfcTableOk hdfcTableScore tables ≤ keyOf hdfcTableOk hdfcTableScore u))
       else none) ∧
    extractTransactionTable tables =
      (if 0 < maxKey tableAwareOk tableAwareScore tables
       then tables.find? (fun u =>
         decide (maxKey tableAwareOk tableAwareScore tables ≤ keyOf tableAwareOk tableAwareScore u))
       else none) ∧
    (∀ t, hdfcFindTransactionTable tables = some t →
      t ∈ tables ∧ 3 ≤ t.rows.length ∧ 0 < hdfcTableScore t ∧
      ∀ u ∈ tables, keyOf hdfcTableOk hdfcTableScore u ≤ hdfcTableScore t) ∧
    ((∀ u ∈ tables, keyOf hdfcTableOk hdfcTableScore u = 0) →
      hdfcFindTransactionTable tables = none) := by
  have hchar : hdfcFindTransactionTable tables =
      (if 0 < maxKey hdfcTableOk hdfcTableScore tables
       then tables.find? (fun u =>
         decide (maxKey hdfcTableOk hdfcTableScore tables ≤ keyOf hdfcTableOk hdfcTableScore u))
       else none) := bestLoop_eq hdfcTableOk hdfcTableScore tables none 0
  have hchar2 : extractTransactionTable tables =
      (if 0 < maxKey tableAwareOk tableAwareScore tables
       then tables.find? (fun u =>
         decide (maxKey tableAwareOk tableAwareScore tables ≤ keyOf tableAwareOk tableAwareScore u))
       else none) := bestLoop_eq tableAwareOk tableAwareScore tables none 0
  refine ⟨hchar, hchar2, ?_, ?_⟩
  · intro t hsome
    rw [hchar] at hsome
    by_cases hpos : 0 < maxKey hdfcTableOk hdfcTableScore tables
    · rw [if_pos hpos] at hsome
      have hmem := List.mem_of_find?_eq_some hsome
      have hpred := List.find?_some hsome
      have hle : maxKey hdfcTableOk hdfcTableScore tables ≤ keyOf hdfcTableOk hdfcTableScore t :=
        of_decide_eq_true hpred
      have hge := keyOf_le_maxKey hdfcTableOk hdfcTableScore hmem
      have hkpos : 0 < keyOf hdfcTableOk hdfcTableScore t := by omega
      have helig : hdfcTableOk t = true := by
        by_contra hne
        simp [keyOf, hne] at hkpos
      have hkey : keyOf hdfcTableOk hdfcTableScore t = hdfcTableScore t := by
        simp [keyOf, helig]
      have hrows : 3 ≤ t.rows.length := by
        have := helig
        simp [hdfcTableOk, dfEmpty] at this
        omega
      refine ⟨hmem, hrows, by omega, ?_⟩
      intro u hu
      have := keyOf_le_maxKey hdfcTableOk hdfcTableScore hu
      omega
    · rw [if_neg hpos] at hsome
      exact absurd hsome (by simp)
  · intro hz
    rw [hchar, if_neg (by rw [maxKey_eq_zero hdfcTableOk hdfcTableScore hz]; omega)]

/-- A well-formed three-row HDFC-style transaction table. -/
def hdfcTxnTable : TableBlock :=
  ⟨["Date", "Description", "Amount"],
   [["01/01/2024", "COFFEE HOUSE", "5.00"],
    ["02/01/2024", "BOOK STORE", "250.00"],
    ["03/01/2024", "PAYMENT RECEIVED", "100.00"]]⟩

/-- Witness for the amended C3 theorem at concrete table lists. -/
theorem resolver_selection_witness :
    (hdfcTxnTable ∈ [hdfcTxnTable] ∧ 3 ≤ hdfcTxnTable.rows.length ∧
      0 < hdfcTableScore hdfcTxnTable ∧
      ∀ u ∈ [hdfcTxnTable],
        keyOf hdfcTableOk hdfcTableScore u ≤ hdfcTableScore hdfcTxnTable) ∧
    hdfcFindTransactionTable [smallTxnTable] = none :=
  ⟨(resolver_selection [hdfcTxnTable]).2.2.1 hdfcTxnTable (by decide),
   (resolver_selection [smallTxnTable]).2.2.2 (by decide)⟩

/-! ## Transaction extraction and filtering -/

/-- Column lookup shared (verbatim) by `HDFCTableParser._find_column_by_keywords`
and `TableBasedParser._find_column`: the first column whose lower-cased
header contains any of the keywords. -/
def findColumnIdx (headers : List String) (kws : List String) : Option Nat :=
  headers.findIdx? (fun h => kws.any (fun k => containsSub (lowerStr h) k))

/-- A parsed transaction record (`models/statement.py` `Transaction`). -/
structure PTransaction where
  date : String
  description : String
  amount : PyFloat
  category : Option String := none
deriving DecidableEq

/-- Column keywords of `HDFCTableParser._extract_transactions`. -/
def hdfcDateKws : List String := ["date", "txn date"]

def hdfcDescKws : List String := ["description", "transaction", "details"]

def hdfcAmtKws : List String := ["amount", "value", "rs"]

/-- The skip terms of `HDFCTableParser._extract_transactions`. -/
def hdfcTableSkipTerms : List String := ["PAYMENT", "NEFT CREDIT", "INFINITY PAYMENT"]

/-- One loop iteration of `HDFCTableParser._extract_transactions`: strip
the three cells, drop header-echo/nan dates, drop short descriptions,
parse the amount, and keep the row only when the amount is positive and
no skip term occurs in the upper-cased description. -/
def hdfcRowTxn (di de ai : Nat) (row : List String) : Option PTransaction :=
  let date := stripStr (row.getD di "")
  let description := stripStr (row.getD de "")
  let amountStr := stripStr (row.getD ai "")
  if containsSub (lowerStr date) "date" || containsSub (lowerStr date) "nan" then none
  else if description.length < 3 then none
  else
    let amount := hdfcParseAmount amountStr
    if amount.isPos then
      if hdfcTableSkipTerms.any (fun k => containsSub (upperStr description) k) then none
      else some { date := date, description := description, amount := amount }
    else none

/-- The table-path body of `HDFCTableParser._extract_transactions` once a
table is resolved: identify the three columns, reject the whole table if
any is missing, otherwise filter the rows. -/
def hdfcExtractFromTable (t : TableBlock) : List PTransaction :=
  match findColumnIdx t.header hdfcDateKws,
        findColumnIdx t.header hdfcDescKws,
        findColumnIdx t.header hdfcAmtKws with
  | some di, some de, some ai => t.rows.filterMap (hdfcRowTxn di de ai)
  | _, _, _ => []

/-- `HDFCTableParser._extract_transactions`. -/
def hdfcExtractTransactions (tables : List TableBlock) : List PTransaction :=
  match hdfcFindTransactionTable tables with
  | none => []
  | some t => hdfcExtractFromTable t

/-- The transaction list of the `StatementData` built by
`HDFCTableParser.parse`: `transactions[:5]`. -/
def hdfcStatementTransactions (tables : List TableBlock) : List PTransaction :=
  (hdfcExtractTransactions tables).take 5

/-- The skip terms of `HDFCParser.extract_hdfc_transactions` (text
fallback path). -/
def hdfcTextSkipTerms : List String := ["PAYMENT", "CREDIT", "IGST", "GST"]

/-- One loop iteration of `HDFCParser.extract_hdfc_transactions` over a
regex match `(date, description, amount)`. -/
def hdfcTextMatchTxn (m : String × String × String) : Option PTransaction :=
  let date := stripStr m.1
  let description := collapseWs (stripStr m.2.1)
  if hdfcTextSkipTerms.any (fun k => containsSub (upperStr description) k) then none
  else if description.length < 3 then none
  else
    let amount := extractAmount m.2.2
    if amount.isPos then
      some { date := date, description := description, amount := amount }
    else none

/-- `HDFCParser.extract_hdfc_transactions` applied to the list of regex
matches (`matches[:10]`, then the per-match filter). -/
def hdfcExtractTextTransactions (ms : List (String × String × String)) :
    List PTransaction :=
  (ms.take 10).filterMap hdfcTextMatchTxn

/-- The transaction list of the `StatementData` built by
`HDFCParser.parse`: `transactions[:5]`. -/
def hdfcTextStatementTransactions (ms : List (String × String × String)) :
    List PTransaction :=
  (hdfcExtractTextTransactions ms).take 5

/-- The skip terms of `BaseParser.is_valid_transaction`. -/
def baseSkipTerms : List String :=
  ["PAYMENT RECEIVED", "THANK YOU", "INTEREST CHARGES", "FINANCE CHARGES",
   "LATE PAYMENT FEE", "GST", "IGST", "CGST", "SGST"]

/-- `BaseParser.is_valid_transaction`. -/
def isValidTransaction (description : String) (amount : PyFloat) : Bool :=
  if description.length < 3 then false
  else if amount.leZero then false
  else if baseSkipTerms.any (fun term => containsSub (upperStr description) term) then false
  else true

/-- C2: every transaction surviving to the returned statement record has
a strictly positive amount, a description of at least three characters
and no exclusion term in it; a candidate row or regex match violating
any of the three conditions is mapped to `none` (and the base validity
predicate rejects it), so it never enters the stored list. -/
theorem transaction_filter_invariant :
    (∀ (tables : List TableBlock) (tx : PTransaction),
        tx ∈ hdfcStatementTransactions tables →
        tx.amount.isPos = true ∧ 3 ≤ tx.description.length ∧
        hdfcTableSkipTerms.any (fun k => containsSub (upperStr tx.description) k) = false) ∧
    (∀ (ms : List (String × String × String)) (tx : PTransaction),
        tx ∈ hdfcTextStatementTransactions ms →
        tx.amount.isPos = true ∧ 3 ≤ tx.description.length ∧
        hdfcTextSkipTerms.any (fun k => containsSub (upperStr tx.description) k) = false) ∧
    (∀ (di de ai : Nat) (row : List String),
        ((hdfcParseAmount (stripStr (row.getD ai ""))).isPos = false ∨
          (stripStr (row.getD de "")).length < 3 ∨
          hdfcTableSkipTerms.any
            (fun k => containsSub (upperStr (stripStr (row.getD de ""))) k) = true) →
        hdfcRowTxn di de ai row = none) ∧
    (∀ (d : String) (a : PyFloat),
        (a.leZero = true ∨ d.length < 3 ∨
          baseSkipTerms.any (fun k => containsSub (upperStr d) k) = true) →
        isValidTransaction d a = false) := by
  refine ⟨?_, ?_, ?_, ?_⟩
  · intro tables tx hmem
    have hmem2 : tx ∈ hdfcExtractTransactions tables := List.take_subset 5 _ hmem
    rcases hfind : hdfcFindTransactionTable tables with _ | t
    · rw [show hdfcExtractTransactions tables = [] from by
        unfold hdfcExtractTransactions; rw [hfind]] at hmem2
      simp at hmem2
    · rw [show hdfcExtractTransactions tables = hdfcExtractFromTable t from by
        unfold hdfcExtractTransactions; rw [hfind]] at hmem2
      rcases h1 : findColumnIdx t.header hdfcDateKws with _ | di
      · rw [show hdfcExtractFromTable t = [] from by
          unfold hdfcExtractFromTable; rw [h1]] at hmem2
        simp at hmem2
      rcases h2 : findColumnIdx t.header hdfcDescKws with _ | de
      · rw [show hdfcExtractFromTable t = [] from by
          unfold hdfcExtractFromTable; rw [h1, h2]] at hmem2
        simp at hmem2
      rcases h3 : findColumnIdx t.header hdfcAmtKws with _ | ai
      · rw [show hdfcExtractFromTable t = [] from by
          unfold hdfcExtractFromTable; rw [h1, h2, h3]] at hmem2
        simp at hmem2
      rw [show hdfcExtractFromTable t = t.rows.filterMap (hdfcRowTxn di de ai) from by
        unfold hdfcExtractFromTable; rw [h1, h2, h3]] at hmem2
      rcases List.mem_filterMap.mp hmem2 with ⟨row, _, hrow⟩
      unfold hdfcRowTxn at hrow
      simp only at hrow
      split at hrow
      case isTrue => exact absurd hrow (by simp)
      case isFalse hdate =>
        split at hrow
        case isTrue => exact absurd hrow (by simp)
        case isFalse hlen =>
          split at hrow
          case isTrue hpos =>
            split at hrow
            case isTrue => exact absurd hrow (by simp)
            case isFalse hskip =>
              rcases Option.some.inj hrow with rfl
              dsimp only
              exact ⟨hpos, by omega, by simpa using hskip⟩
          case isFalse => exact absurd hrow (by simp)
  · intro ms tx hmem
    have hmem2 : tx ∈ hdfcExtractTextTransactions ms := List.take_subset 5 _ hmem
    rcases List.mem_filterMap.mp hmem2 with ⟨m, _, hm⟩
    unfold hdfcTextMatchTxn at hm
    simp only at hm
    split at hm
    case isTrue => exact absurd hm (by simp)
    case isFalse hskip =>
      split at hm
      case isTrue => exact absurd hm (by simp)
      case isFalse hlen =>
        split at hm
        case isTrue hpos =>
          rcases Option.some.inj hm with rfl
          dsimp only
          exact ⟨hpos, by omega, by simpa using hskip⟩
        case isFalse => exact absurd hm (by simp)
  · intro di de ai row h
    unfold hdfcRowTxn
    simp only [List.getD_eq_getElem?_getD] at h ⊢
    split
    case isTrue => rfl
    case isFalse hdate =>
      split
      case isTrue => rfl
      case isFalse hlen =>
        split
        case isTrue hpos =>
          split
          case isTrue => rfl
          case isFalse hskip =>
            rcases h with h | h | h
            · simp [h] at hpos
            · exact absurd h hlen
            · exact absurd h hskip
        case isFalse => rfl
  · intro d a h
    unfold isValidTransaction
    split
    case isTrue => rfl
    case isFalse hlen =>
      split
      case isTrue => rfl
      case isFalse hle =>
        split
        case isTrue => rfl
        case isFalse hterm =>
          rcases h with h | h | h
          · exact absurd h hle
          · exact absurd h hlen
          · exact absurd h hterm

/-- A concrete HDFC transaction table for the C2 witness. -/
def c2Tables : List TableBlock :=
  [⟨["Date", "Description", "Amount"],
    [["01/01/2024", "COFFEE HOUSE", "5.00"],
     ["02/01/2024", "BOOK STORE", "250.00"],
     ["03/01/2024", "NEFT CREDIT RECV", "100.00"]]⟩]

/-- The transaction the C2 witness table yields first. -/
def c2Tx : PTransaction := ⟨"01/01/2024", "COFFEE HOUSE", .finite 500 (-2), none⟩

/-- The transaction the C2 witness text match yields. -/
def c2TxText : PTransaction := ⟨"01/02/2024", "TAXI RIDE", .finite 9900 (-2), none⟩

/-- Witness for C2 at concrete tables, matches, rows and descriptions. -/
theorem transaction_filter_invariant_witness :
    (c2Tx.amount.isPos = true ∧ 3 ≤ c2Tx.description.length ∧
      hdfcTableSkipTerms.any (fun k => containsSub (upperStr c2Tx.description) k) = false) ∧
    (c2TxText.amount.isPos = true ∧ 3 ≤ c2TxText.description.length ∧
      hdfcTextSkipTerms.any (fun k => containsSub (upperStr c2TxText.description) k) = false) ∧
    hdfcRowTxn 0 1 2 ["x", "ab", "0.00"] = none ∧
    isValidTransaction "PAYMENT RECEIVED THANK YOU" (.finite 5 0) = false :=
  ⟨transaction_filter_invariant.1 c2Tables c2Tx (by decide),
   transaction_filter_invariant.2.1 [("01/02/2024", "TAXI RIDE", "99.00")] c2TxText (by decide),
   transaction_filter_invariant.2.2.1 0 1 2 ["x", "ab", "0.00"] (by decide),
   transaction_filter_invariant.2.2.2 "PAYMENT RECEIVED THANK YOU" (.finite 5 0) (by decide)⟩

/-- Column keywords of `TableBasedParser._extract_transactions_from_table`. -/
def tbDateKws : List String := ["date", "txn", "transaction"]

def tbDescKws : List String := ["description", "desc", "particulars", "details", "merchant"]

def tbAmtKws : List String := ["amount", "debit", "value", "price"]

/-- One loop iteration of `TableBasedParser._extract_transactions_from_table`:
keep the row only when the cleaned amount is positive and the description
has more than two characters. -/
def tbRowTxn (di de ai : Nat) (row : List String) : Option PTransaction :=
  let date := stripStr (row.getD di "")
  let description := stripStr (row.getD de "")
  let amountStr := stripStr (row.getD ai "")
  let amount := tableCleanAmount amountStr
  if amount.isPos && decide (2 < description.length) then
    some { date := date, description := description, amount := amount }
  else none

/-- `TableBasedParser._extract_transactions_from_table`: resolve the
transaction table, reject empty tables, identify the three columns
(rejecting the whole table when any is missing), filter the rows, and
return at most ten transactions. -/
def tbExtractTransactionsFromTable (tables : List TableBlock) : List PTransaction :=
  match extractTransactionTable tables with
  | none => []
  | some t =>
    if dfEmpty t then []
    else
      match findColumnIdx t.header tbDateKws, findColumnIdx t.header tbDescKws,
            findColumnIdx t.header tbAmtKws with
      | some di, some de, some ai => (t.rows.filterMap (tbRowTxn di de ai)).take 10
      | _, _, _ => []

/-- C8: on the table path, if any of the three logical columns cannot be
identified in the resolved table, the whole table is rejected and zero
transactions are produced — in both normalizers. -/
theorem table_reject_on_missing_column :
    ∀ (tables : List TableBlock) (t : TableBlock),
      (extractTransactionTable tables = some t →
        (findColumnIdx t.header tbDateKws = none ∨
         findColumnIdx t.header tbDescKws = none ∨
         findColumnIdx t.header tbAmtKws = none) →
        tbExtractTransactionsFromTable tables = []) ∧
      (hdfcFindTransactionTable tables = some t →
        (findColumnIdx t.header hdfcDateKws = none ∨
         findColumnIdx t.header hdfcDescKws = none ∨
         findColumnIdx t.header hdfcAmtKws = none) →
        hdfcExtractTransactions tables = []) := by
  intro tables t
  constructor
  · intro hfind hcols
    unfold tbExtractTransactionsFromTable
    rw [hfind]
    dsimp only
    cases hde : dfEmpty t
    · rcases h1 : findColumnIdx t.header tbDateKws with _ | di <;>
        rcases h2 : findColumnIdx t.header tbDescKws with _ | de <;>
          rcases h3 : findColumnIdx t.header tbAmtKws with _ | ai <;>
            simp [h1, h2, h3] <;> rcases hcols with h | h | h <;> simp_all
    · simp
  · intro hfind hcols
    unfold hdfcExtractTransactions
    rw [hfind]
    show hdfcExtractFromTable t = []
    unfold hdfcExtractFromTable
    rcases h1 : findColumnIdx t.header hdfcDateKws with _ | di <;>
      rcases h2 : findColumnIdx t.header hdfcDescKws with _ | de <;>
        rcases h3 : findColumnIdx t.header hdfcAmtKws with _ | ai <;>
          simp [h1, h2, h3] <;> rcases hcols with h | h | h <;> simp_all

/-- A resolvable table whose description column no keyword matches. -/
def c8Table : TableBlock :=
  ⟨["date", "narration", "amount"],
   [["01/01/2024", "alpha", "1.00"], ["02/01/2024", "beta", "2.00"],
    ["03/01/2024", "gamma", "3.00"]]⟩

/-- Witness for C8: both normalizers produce zero transactions from a
resolved table whose description column cannot be identified. -/
theorem table_reject_on_missing_column_witness :
    tbExtractTransactionsFromTable [c8Table] = [] ∧
    hdfcExtractTransactions [c8Table] = [] :=
  ⟨(table_reject_on_missing_column [c8Table] c8Table).1 (by decide) (by decide),
   (table_reject_on_missing_column [c8Table] c8Table).2 (by decide) (by decide)⟩

/-! ## Regex matchers for the confidence estimator

`re.search(pattern, text)` is used only for its truthiness, so each
pattern is embedded as a nondeterministic matcher returning the possible
remainders after a match starting at the given position; `mSearch` asks
whether a match starts at any position, which is exactly the existence
of a `re.search` hit for these patterns. -/

def mChar (p : Char → Bool) : List Char → List (List Char)
  | [] => []
  | c :: rest => if p c then [rest] else []

def mSeq (m1 m2 : List Char → List (List Char)) (cs : List Char) : List (List Char) :=
  (m1 cs).flatMap m2

/-- Consume exactly `n` characters satisfying `p`. -/
def mForce (p : Char → Bool) : Nat → List Char → Option (List Char)
  | 0, cs => some cs
  | _ + 1, [] => none
  | n + 1, c :: rest => if p c then mForce p n rest else none

/-- Consume between 0 and `n` characters satisfying `p` (all options). -/
def mOpt (p : Char → Bool) : Nat → List Char → List (List Char)
  | 0, cs => [cs]
  | _ + 1, [] => [[]]
  | n + 1, c :: rest => if p c then (c :: rest) :: mOpt p n rest else [c :: rest]

/-- `p{lo,hi}`: consume between `lo` and `hi` characters satisfying `p`. -/
def mRep (p : Char → Bool) (lo hi : Nat) (cs : List Char) : List (List Char) :=
  match mForce p lo cs with
  | none => []
  | some cs2 => mOpt p (hi - lo) cs2

def mMatches (m : List Char → List (List Char)) (cs : List Char) : Bool :=
  !(m cs).isEmpty

/-- Does a match start at some position of the text? -/
def mSearch (m : List Char → List (List Char)) : List Char → Bool
  | [] => mMatches m []
  | c :: rest => mMatches m (c :: rest) || mSearch m rest

/-- `\d{1,2}/\d{1,2}/\d{2,4}`. -/
def datePat1 : List Char → List (List Char) :=
  mSeq (mRep Char.isDigit 1 2)
    (mSeq (mChar (· == '/'))
      (mSeq (mRep Char.isDigit 1 2)
        (mSeq (mChar (· == '/')) (mRep Char.isDigit 2 4))))

/-- `\d{1,2}-\d{1,2}-\d{2,4}`. -/
def datePat2 : List Char → List (List Char) :=
  mSeq (mRep Char.isDigit 1 2)
    (mSeq (mChar (· == '-'))
      (mSeq (mRep Char.isDigit 1 2)
        (mSeq (mChar (· == '-')) (mRep Char.isDigit 2 4))))

/-- `[A-Za-z]+ \d{1,2}, \d{4}` (the unbounded `+` is capped by the text
length `n`, which consumes no generality). -/
def datePat3 (n : Nat) : List Char → List (List Char) :=
  mSeq (mRep Char.isAlpha 1 n)
    (mSeq (mChar (· == ' '))
      (mSeq (mRep Char.isDigit 1 2)
        (mSeq (mChar (· == ','))
          (mSeq (mChar (· == ' ')) (mRep Char.isDigit 4 4)))))

/-- The three `date_patterns` searches of `calculate_confidence`, in
source order. -/
def dateSearches (s : String) : List Bool :=
  [mSearch datePat1 s.data, mSearch datePat2 s.data,
   mSearch (datePat3 s.data.length) s.data]

/-- `\$[\d,]+\.?\d*`. -/
def currencyPat (n : Nat) : List Char → List (List Char) :=
  mSeq (mChar (· == '$'))
    (mSeq (mRep (fun c => c.isDigit || c == ',') 1 n)
      (mSeq (mRep (· == '.') 0 1) (mRep Char.isDigit 0 n)))

def isXStar (c : Char) : Bool := c == 'X' || c == 'x' || c == '*'

def isSpaceDash (c : Char) : Bool := pyIsSpace c || c == '-'

/-- `[Xx*]{4}[\s-]?[Xx*]{4}[\s-]?[Xx*]{4}[\s-]?\d{4}`. -/
def cardPat : List Char → List (List Char) :=
  mSeq (mRep isXStar 4 4)
    (mSeq (mRep isSpaceDash 0 1)
      (mSeq (mRep isXStar 4 4)
        (mSeq (mRep isSpaceDash 0 1)
          (mSeq (mRep isXStar 4 4)
            (mSeq (mRep isSpaceDash 0 1) (mRep Char.isDigit 4 4))))))

/-- The keyword list of `EnhancedPDFExtractor.calculate_confidence`. -/
def confKeywords : List String :=
  ["statement", "balance", "payment", "account", "credit", "card",
   "transaction", "due", "date", "amount", "total"]

/-- `EnhancedPDFExtractor.calculate_confidence` (scores as exact
rationals: 0.1 is 1/10, 0.2 is 1/5). -/
def calculateConfidence (text : String) : ℚ :=
  if text = "" then 0
  else
    let tl := lowerStr text
    let s1 := confKeywords.foldl (fun sc kw => if containsSub tl kw then sc + 1 / 10 else sc) 0
    let s2 := (dateSearches text).foldl (fun sc b => if b then sc + 1 / 10 else sc) s1
    let s3 := if mSearch (currencyPat text.data.length) text.data then s2 + 1 / 5 else s2
    let s4 := if mSearch cardPat text.data then s3 + 1 / 5 else s3
    min s4 1

/-- The claim's weighted sum: 0.1 per present keyword, 0.1 per matching
date-pattern family, 0.2 for a currency hit, 0.2 for a masked-card hit. -/
def confidenceFormula (s : String) : ℚ :=
  (confKeywords.countP (fun kw => containsSub (lowerStr s) kw) : ℚ) / 10 +
  ((dateSearches s).countP (fun b => b) : ℚ) / 10 +
  (if mSearch (currencyPat s.data.length) s.data then (1 : ℚ) / 5 else 0) +
  (if mSearch cardPat s.data then (1 : ℚ) / 5 else 0)

theorem foldl_count_step {α : Type} (p : α → Bool) (c : ℚ) :
    ∀ (l : List α) (a : ℚ),
      l.foldl (fun sc x => if p x then sc + c else sc) a = a + c * l.countP p := by
  intro l
  induction l with
  | nil => intro a; simp
  | cons x l ih =>
    intro a
    cases hx : p x <;> simp [hx, ih, List.countP_cons] <;> push_cast <;> ring

theorem confidenceFormula_nonneg (s : String) : 0 ≤ confidenceFormula s := by
  unfold confidenceFormula
  have h3 : (0 : ℚ) ≤ if mSearch (currencyPat s.data.length) s.data then (1 : ℚ) / 5 else 0 := by
    split <;> norm_num
  have h4 : (0 : ℚ) ≤ if mSearch cardPat s.data then (1 : ℚ) / 5 else 0 := by
    split <;> norm_num
  have h1 : (0 : ℚ) ≤ (confKeywords.countP (fun kw => containsSub (lowerStr s) kw) : ℚ) / 10 := by
    positivity
  have h2 : (0 : ℚ) ≤ ((dateSearches s).countP (fun b => b) : ℚ) / 10 := by positivity
  linarith

/-- C6: the confidence score is exactly the claim's weighted sum clamped
at 1, and always lies in the closed interval [0, 1]. -/
theorem confidence_in_unit_interval (s : String) :
    calculateConfidence s = min (confidenceFormula s) 1 ∧
    0 ≤ calculateConfidence s ∧ calculateConfidence s ≤ 1 := by
  have heq : calculateConfidence s = min (confidenceFormula s) 1 := by
    by_cases hs : s = ""
    · subst hs
      have h1 : confKeywords.countP (fun kw => containsSub (lowerStr "") kw) = 0 := by decide
      have h2 : (dateSearches "").countP (fun b => b) = 0 := by decide
      have h3 : mSearch (currencyPat ("" : String).data.length) ("" : String).data = false := by
        decide
      have h4 : mSearch cardPat ("" : String).data = false := by decide
      unfold calculateConfidence confidenceFormula
      rw [if_pos rfl, h1, h2, h3, h4]
      norm_num
    · unfold calculateConfidence confidenceFormula
      rw [if_neg hs]
      dsimp only
      rw [foldl_count_step, foldl_count_step]
      cases hc : mSearch (currencyPat s.data.length) s.data <;>
        cases hk : mSearch cardPat s.data <;>
          simp <;> (congr 1 <;> try ring)
  refine ⟨heq, ?_, ?_⟩
  · rw [heq]
    exact le_min (confidenceFormula_nonneg s) (by norm_num)
  · rw [heq]
    exact min_le_right _ _

/-! ## Choosing between direct extraction and OCR -/

/-- The outcome record of `extract_with_confidence_scores`: both
confidences, which method was chosen, and the final text. -/
structure ExtractionChoice where
  textConf : ℚ
  ocrConf : ℚ
  usedOcr : Bool
  finalText : String

/-- `EnhancedPDFExtractor.extract_with_confidence_scores`, as a function
of the two already-extracted texts: each non-empty text is scored, and
the direct result is kept only when its confidence is *strictly*
greater. -/
def extractWithConfidenceScores (textExtracted ocrExtracted : String) : ExtractionChoice :=
  let tc := if textExtracted ≠ "" then calculateConfidence textExtracted else 0
  let oc := if ocrExtracted ≠ "" then calculateConfidence ocrExtracted else 0
  let tt := if textExtracted ≠ "" then textExtracted else ""
  let ot := if ocrExtracted ≠ "" then ocrExtracted else ""
  if oc < tc then ⟨tc, oc, false, tt⟩ else ⟨tc, oc, true, ot⟩

/-- C5 counterexample: when the two confidence scores are exactly equal
(here both zero), the pipeline selects the OCR result, not the direct
extraction the claim promises. -/
theorem extraction_tie_counterexample :
    (extractWithConfidenceScores "" "").textConf = (extractWithConfidenceScores "" "").ocrConf ∧
    (extractWithConfidenceScores "" "").usedOcr = true := by
  unfold extractWithConfidenceScores
  dsimp only
  rw [if_neg (lt_irrefl _)]
  exact ⟨rfl, rfl⟩

/-- C5 amended: the pipeline keeps the direct extraction exactly when its
confidence is strictly higher; on ties (and whenever the OCR confidence
is at least as high) it selects the OCR result. -/
theorem extraction_choice (d o : String) :
    ((extractWithConfidenceScores d o).ocrConf < (extractWithConfidenceScores d o).textConf →
      (extractWithConfidenceScores d o).usedOcr = false ∧
      (extractWithConfidenceScores d o).finalText = d) ∧
    ((extractWithConfidenceScores d o).textConf ≤ (extractWithConfidenceScores d o).ocrConf →
      (extractWithConfidenceScores d o).usedOcr = true ∧
      (extractWithConfidenceScores d o).finalText = o) ∧
    (extractWithConfidenceScores d o).textConf =
      (if d ≠ "" then calculateConfidence d else 0) ∧
    (extractWithConfidenceScores d o).ocrConf =
      (if o ≠ "" then calculateConfidence o else 0) := by
  unfold extractWithConfidenceScores
  dsimp only
  have htt : (if d ≠ "" then d else "") = d := by by_cases hd : d = "" <;> simp [hd]
  have hot : (if o ≠ "" then o else "") = o := by by_cases ho : o = "" <;> simp [ho]
  by_cases h : (if o ≠ "" then calculateConfidence o else 0) <
      (if d ≠ "" then calculateConfidence d else 0)
  · rw [if_pos h]
    dsimp only
    exact ⟨fun _ => ⟨rfl, htt⟩, fun hle => absurd h (not_lt.mpr hle), rfl, rfl⟩
  · rw [if_neg h]
    dsimp only
    exact ⟨fun hlt => absurd hlt h, fun _ => ⟨rfl, hot⟩, rfl, rfl⟩

/-- Concrete score used by the C5 witness: the text "statement balance"
contains exactly two keywords and matches no pattern. -/
theorem calculateConfidence_statement_balance :
    calculateConfidence "statement balance" = 1 / 5 := by
  unfold calculateConfidence
  rw [if_neg (by decide)]
  dsimp only
  rw [foldl_count_step, foldl_count_step]
  have h1 : confKeywords.countP
      (fun kw => containsSub (lowerStr "statement balance") kw) = 2 := by decide
  have h2 : (dateSearches "statement balance").countP (fun b => b) = 0 := by decide
  have h3 : mSearch (currencyPat ("statement balance" : String).data.length)
      ("statement balance" : String).data = false := by decide
  have h4 : mSearch cardPat ("statement balance" : String).data = false := by decide
  rw [h1, h2, h3, h4]
  norm_num

/-- Witness for the amended C5 theorem: a keyword-bearing direct text
beats empty OCR output, and on an exact tie the OCR branch is taken. -/
theorem extraction_choice_witness :
    ((extractWithConfidenceScores "statement balance" "").usedOcr = false ∧
      (extractWithConfidenceScores "statement balance" "").finalText = "statement balance") ∧
    ((extractWithConfidenceScores "" "").usedOcr = true ∧
      (extractWithConfidenceScores "" "").finalText = "") := by
  constructor
  · apply (extraction_choice "statement balance" "").1
    rw [(extraction_choice "statement balance" "").2.2.1,
      (extraction_choice "statement balance" "").2.2.2]
    simp only [ne_eq, not_true_eq_false, if_false, String.reduceEq, not_false_eq_true, if_true]
    rw [calculateConfidence_statement_balance]
    norm_num
  · apply (extraction_choice "" "").2.1
    have h0 : (extractWithConfidenceScores "" "").textConf =
        (extractWithConfidenceScores "" "").ocrConf := by
      unfold extractWithConfidenceScores
      dsimp only
      rw [if_neg (lt_irrefl _)]
    exact le_of_eq h0

/-! ## The statement record and its dictionary serialization -/

/-- A Python value as produced by `StatementData.to_dict`: `None`,
floats, strings, lists and string-keyed dicts. -/
inductive PyVal where
  | pynone
  | float (x : PyFloat)
  | str (s : String)
  | list (xs : List PyVal)
  | dict (fields : List (String × PyVal))

/-- The `StatementData` dataclass of `models/statement.py`, with its two
defaulted fields (`minimum_payment = None`, `transactions = None`). -/
structure StatementData where
  issuer : String
  cardLastFour : String
  billingCycle : String
  paymentDueDate : String
  totalBalance : PyFloat
  minimumPayment : Option PyFloat := none
  transactions : Option (List PTransaction) := none

/-- The per-transaction dict built inside `StatementData.to_dict`. -/
def transactionToDict (t : PTransaction) : PyVal :=
  .dict [("date", .str t.date), ("description", .str t.description),
         ("amount", .float t.amount),
         ("category", match t.category with | some c => .str c | none => .pynone)]

/-- `StatementData.to_dict`.  The `transactions` entry iterates
`self.transactions or []`, which is `[]` both for `None` and for an
empty list, so the match below is value-for-value faithful. -/
def StatementData.toDict (sd : StatementData) : PyVal :=
  .dict [("issuer", .str sd.issuer),
         ("cardLastFour", .str sd.cardLastFour),
         ("billingCycle", .str sd.billingCycle),
         ("paymentDueDate", .str sd.paymentDueDate),
         ("totalBalance", .float sd.totalBalance),
         ("minimumPayment",
           match sd.minimumPayment with | some m => .float m | none => .pynone),
         ("transactions",
           .list ((match sd.transactions with
                   | none => []
                   | some ts => ts).map transactionToDict))]

/-- Python dict key access on the serialized value. -/
def dictLookup (v : PyVal) (k : String) : Option PyVal :=
  match v with
  | .dict fields => fields.lookup k
  | _ => none

/-- C10: serialization is total (it is a Lean function) and the
`transactions` entry is always a list — the empty list when the record's
`transactions` is `None` — never `None`/null, while `minimumPayment`
serializes to `None` when absent. -/
theorem toDict_transactions_always_list (sd : StatementData) :
    dictLookup sd.toDict "transactions" =
      some (.list ((match sd.transactions with
                    | none => []
                    | some ts => ts).map transactionToDict)) ∧
    (sd.transactions = none →
      dictLookup sd.toDict "transactions" = some (.list [])) ∧
    dictLookup sd.toDict "transactions" ≠ some .pynone ∧
    (sd.minimumPayment = none →
      dictLookup sd.toDict "minimumPayment" = some .pynone) := by
  have h1 : dictLookup sd.toDict "transactions" =
      some (.list ((match sd.transactions with
                    | none => []
                    | some ts => ts).map transactionToDict)) := by
    simp [StatementData.toDict, dictLookup, List.lookup]
  refine ⟨h1, ?_, ?_, ?_⟩
  · intro h
    rw [h1, h]
    rfl
  · rw [h1]
    intro h
    exact absurd (Option.some.inj h) (by simp)
  · intro h
    simp [StatementData.toDict, dictLookup, List.lookup, h]

/-- A statement record with every optional field at its default. -/
def emptyStatement : StatementData :=
  { issuer := "HDFC Bank", cardLastFour := "0591", billingCycle := "N/A",
    paymentDueDate := "N/A", totalBalance := .finite 0 0 }

/-- Witness for C10 on a record whose `transactions` is `None`. -/
theorem toDict_transactions_always_list_witness :
    dictLookup emptyStatement.toDict "transactions" = some (.list []) ∧
    dictLookup emptyStatement.toDict "minimumPayment" = some .pynone :=
  ⟨(toDict_transactions_always_list emptyStatement).2.1 rfl,
   (toDict_transactions_always_list emptyStatement).2.2.2 rfl⟩

end CCStmt
